import Mathlib

set_option allowUnsafeReducibility true
set_option maxRecDepth 1000000

attribute [semireducible] Rat.add Rat.mul Rat.sub Rat.inv Rat.ofScientific

/-!
Shallow embedding of `angad_sphere_texture.cpp` (a Whitted-style recursive
ray tracer over spheres).  Scalars (C++ `float`) are modelled by `ℚ` with
exact arithmetic; the irrational library functions `sqrt`, `atan2`, `acos`
and the constant `π` are abstracted into a record of primitives
(`MathPrims`), so every definition below is computable and theorems state
their hypotheses on those primitives explicitly (e.g. nonnegativity of
`sqrt`).  The recursion of `trace` is driven by the remaining depth budget
`MAX_RAY_DEPTH - depth`, exactly the quantity the source keeps bounded via
the guard `depth < MAX_RAY_DEPTH`.
-/

/-- The scalar field of the embedding (C++ `float`, modelled exactly). -/
abbrev Scalar := ℚ

/-- The `Vec3<float>` class from the source: three scalar components. -/
structure Vec3 where
  x : Scalar
  y : Scalar
  z : Scalar
deriving DecidableEq, Repr

instance : Zero Vec3 := ⟨⟨0, 0, 0⟩⟩
instance : One Vec3 := ⟨⟨1, 1, 1⟩⟩
instance : Add Vec3 := ⟨fun a b => ⟨a.x + b.x, a.y + b.y, a.z + b.z⟩⟩
instance : Sub Vec3 := ⟨fun a b => ⟨a.x - b.x, a.y - b.y, a.z - b.z⟩⟩
instance : Neg Vec3 := ⟨fun a => ⟨-a.x, -a.y, -a.z⟩⟩
/-- The `operator * (const Vec3<T> &v)` overload: component-wise product. -/
instance : Mul Vec3 := ⟨fun a b => ⟨a.x * b.x, a.y * b.y, a.z * b.z⟩⟩

/-- The `operator * (const T &f)` overload: scale a vector by a scalar (vector on the left,
as in the C++ `v * f`). -/
def Vec3.scale (v : Vec3) (f : Scalar) : Vec3 := ⟨v.x * f, v.y * f, v.z * f⟩

/-- The `dot` product. -/
def Vec3.dot (a b : Vec3) : Scalar := a.x * b.x + a.y * b.y + a.z * b.z

/-- The squared length `length2`. -/
def Vec3.length2 (v : Vec3) : Scalar := v.x * v.x + v.y * v.y + v.z * v.z

/-- The method `Vec3::normalize` (lines 23-31): if the squared length is strictly
positive, scale every component by `1 / sqrt(length2)`; otherwise leave the
vector unchanged.  `sq` is the abstracted square-root primitive. -/
def Vec3.normalize (sq : Scalar → Scalar) (v : Vec3) : Vec3 :=
  let nor2 := v.length2
  if 0 < nor2 then
    let invNor := 1 / sq nor2
    ⟨v.x * invNor, v.y * invNor, v.z * invNor⟩
  else v

/-- The irrational math primitives the source calls (`sqrt`, `atan2`, `acos`,
`M_PI`), abstracted so that the embedding stays exact and computable. -/
structure MathPrims where
  sqrt : Scalar → Scalar
  atan2 : Scalar → Scalar → Scalar
  acos : Scalar → Scalar
  pi : Scalar

/-- The `Sphere` class (lines 80-121): geometry, material and optional
texture (`texture` empty means untextured; `textureWidth`/`textureHeight`
are the stored `int` fields). -/
structure Sphere where
  center : Vec3
  radius : Scalar
  radius2 : Scalar
  surfaceColor : Vec3
  emissionColor : Vec3
  transparency : Scalar
  reflection : Scalar
  texture : List (List Vec3)
  textureWidth : ℤ
  textureHeight : ℤ
deriving DecidableEq, Repr

/-- Placeholder sphere used as the (never semantically relevant) default of
list lookups. -/
def defaultSphere : Sphere := ⟨0, 0, 0, 0, 0, 0, 0, [], 0, 0⟩

/-- The method `Sphere::intersect` (lines 98-109).  Returns `none` exactly where the
source returns `false`; on success returns the pair `(t0, t1)` it writes
through its out-parameters. -/
def Sphere.intersect (P : MathPrims) (s : Sphere) (rayorig raydir : Vec3) :
    Option (Scalar × Scalar) :=
  let l := s.center - rayorig
  let tca := l.dot raydir
  if tca < 0 then none
  else
    let d2 := l.dot l - tca * tca
    if s.radius2 < d2 then none
    else
      let thc := P.sqrt (s.radius2 - d2)
      some (tca - thc, tca + thc)

/-- C-style truncation toward zero of a rational, as in the source's
`static_cast<int>`. -/
def ratTrunc (q : Scalar) : ℤ := if q < 0 then ⌈q⌉ else ⌊q⌋

/-- The clamped index computation of `Sphere::getColor` (lines 117-118):
`min(size - 1, max(0, int(t)))` where `t` is already the product `u * size`
(resp. `v * size`). -/
def texIndex (size : ℤ) (t : Scalar) : ℤ := min (size - 1) (max 0 (ratTrunc t))

/-- Lookup `texture[y][x]`. -/
def texAt (tex : List (List Vec3)) (y x : ℤ) : Vec3 :=
  (tex.getD y.toNat []).getD x.toNat 0

/-- The method `Sphere::getColor` (lines 111-120): flat surface color when untextured,
otherwise spherical (u,v) projection, clamped nearest-neighbor texel. -/
def Sphere.getColor (P : MathPrims) (s : Sphere) (phit : Vec3) : Vec3 :=
  if s.texture = [] then s.surfaceColor
  else
    let hit := phit - s.center
    let u := P.atan2 hit.z hit.x / (2 * P.pi) + 1/2
    let v := P.acos (hit.y / s.radius) / P.pi
    let x := texIndex s.textureWidth (u * s.textureWidth)
    let y := texIndex s.textureHeight (v * s.textureHeight)
    texAt s.texture y x

/-- The constant `MAX_RAY_DEPTH` of line 123 (value 5). -/
def MAX_RAY_DEPTH : ℕ := 5

/-- The helper `mix` (lines 125-128). -/
def mix (a b m : Scalar) : Scalar := b * m + a * (1 - m)

/-- The offset `bias` of line 153 (value 1e-4). -/
def bias : Scalar := 1 / 10000

/-- The sentinel `INFINITY`, as the source's own fallback define of line 12: the initial
value of `tnear` and the hit-distance sentinel. -/
def INFINITY : Scalar := 100000000

/-- The nearest-hit fold of `trace` (lines 136-147): the accumulator is the
pair `(tnear, sphere)`, starting from `(INFINITY, NULL)`; a sphere replaces
it when its parametric distance (`t0`, or `t1` if `t0 < 0`) beats the
current `tnear`. -/
def nearStep (P : MathPrims) (rayorig raydir : Vec3)
    (acc : Scalar × Option Sphere) (s : Sphere) : Scalar × Option Sphere :=
  match s.intersect P rayorig raydir with
  | none => acc
  | some (t0, t1) =>
    let t := if t0 < 0 then t1 else t0
    if t < acc.1 then (t, some s) else acc

/-- The whole nearest-hit loop (lines 136-147). -/
def nearestHitAux (P : MathPrims) (spheres : List Sphere)
    (rayorig raydir : Vec3) : Scalar × Option Sphere :=
  spheres.foldl (nearStep P rayorig raydir) (INFINITY, none)

/-- The result of the nearest-hit search: `none` when the sphere pointer
stays `NULL`, otherwise the chosen distance and sphere. -/
def nearestHit (P : MathPrims) (spheres : List Sphere)
    (rayorig raydir : Vec3) : Option (Scalar × Sphere) :=
  match nearestHitAux P spheres rayorig raydir with
  | (_, none) => none
  | (t, some s) => some (t, s)

/-- The light guard of the direct-illumination loop (line 177): the source
tests only the FIRST channel of the emission color. -/
def isLightCode (s : Sphere) : Bool := decide (0 < s.emissionColor.x)

/-- The inner shadow loop for light index `i` (lines 181-189): some sphere
of index `j ≠ i` intersects the biased shadow ray. -/
def occludedFrom (P : MathPrims) (spheres : List Sphere) (i : ℕ)
    (orig dir : Vec3) : Bool :=
  (List.range spheres.length).any fun j =>
    decide (j ≠ i) &&
      ((spheres.getD j defaultSphere).intersect P orig dir).isSome

/-- One light's addend in the direct-illumination accumulation (lines
178-190): point light at the sphere's center, binary shadow transmission,
Lambertian falloff. -/
def lightTerm (P : MathPrims) (spheres : List Sphere) (shaded : Sphere)
    (phit nhit : Vec3) (i : ℕ) : Vec3 :=
  let li := spheres.getD i defaultSphere
  let lightDirection := Vec3.normalize P.sqrt (li.center - phit)
  let transmission : Vec3 :=
    if occludedFrom P spheres i (phit + nhit.scale bias) lightDirection
    then 0 else 1
  ((shaded.getColor P phit * transmission).scale
      (max 0 (nhit.dot lightDirection))) * li.emissionColor

/-- The direct-illumination loop of `trace` (lines 175-192): accumulate, for
every sphere whose emission color's first channel is positive, its shadowed
Lambertian contribution. -/
def directLight (P : MathPrims) (spheres : List Sphere) (shaded : Sphere)
    (phit nhit : Vec3) : Vec3 :=
  (List.range spheres.length).foldl
    (fun acc i =>
      if 0 < (spheres.getD i defaultSphere).emissionColor.x then
        acc + lightTerm P spheres shaded phit nhit i
      else acc)
    0

/-- The index of refraction `ior` of line 164 (value 1.1). -/
def ior : Scalar := 11 / 10

/-- One level of `trace` (lines 130-195) with the recursive call abstracted
into `recurse` and the depth guard `depth < MAX_RAY_DEPTH` abstracted into
`canRecurse`.  Everything else mirrors the source line by line. -/
def traceStep (P : MathPrims) (spheres : List Sphere)
    (recurse : Vec3 → Vec3 → Vec3) (canRecurse : Bool)
    (rayorig raydir : Vec3) : Vec3 :=
  match nearestHit P spheres rayorig raydir with
  | none => Vec3.mk 2 2 2
  | some (tnear, sphere) =>
    let phit := rayorig + raydir.scale tnear
    let nhit0 := Vec3.normalize P.sqrt (phit - sphere.center)
    let inside : Bool := decide (0 < raydir.dot nhit0)
    let nhit := if 0 < raydir.dot nhit0 then -nhit0 else nhit0
    let surfaceColor :=
      if (0 < sphere.transparency ∨ 0 < sphere.reflection) ∧ canRecurse = true
      then
        let facingratio := -(raydir.dot nhit)
        let fresneleffect := mix ((1 - facingratio) ^ 3) 1 (1 / 10)
        let refldir :=
          Vec3.normalize P.sqrt
            (raydir - (nhit.scale 2).scale (raydir.dot nhit))
        let reflection := recurse (phit + nhit.scale bias) refldir
        let refraction :=
          if sphere.transparency ≠ 0 then
            let eta := if inside then ior else 1 / ior
            let cosi := -(nhit.dot raydir)
            let k := 1 - eta * eta * (1 - cosi * cosi)
            let refrdir :=
              Vec3.normalize P.sqrt
                (raydir.scale eta + nhit.scale (eta * cosi - P.sqrt k))
            recurse (phit - nhit.scale bias) refrdir
          else 0
        (reflection.scale fresneleffect +
            (refraction.scale (1 - fresneleffect)).scale sphere.transparency) *
          sphere.getColor P phit
      else directLight P spheres sphere phit nhit
    surfaceColor + sphere.emissionColor

/-- The function `trace` with the remaining recursion budget made explicit: budget `g + 1`
corresponds to `depth < MAX_RAY_DEPTH` holding (recursion allowed, the
recursive calls run with budget `g`), budget `0` to the guard failing. -/
def traceGas (P : MathPrims) (spheres : List Sphere) :
    ℕ → Vec3 → Vec3 → Vec3
  | 0, rayorig, raydir =>
    traceStep P spheres (fun _ _ => 0) false rayorig raydir
  | Nat.succ g, rayorig, raydir =>
    traceStep P spheres (traceGas P spheres g) true rayorig raydir

/-- The function `trace` with an explicit maximum recursion depth `limit` in place of the
source's `MAX_RAY_DEPTH` constant: the budget remaining at depth `depth` is
`limit - depth`. -/
def traceL (P : MathPrims) (spheres : List Sphere) (limit : ℕ)
    (rayorig raydir : Vec3) (depth : ℕ) : Vec3 :=
  traceGas P spheres (limit - depth) rayorig raydir

/-- The function `trace` (lines 130-195). -/
def trace (P : MathPrims) (spheres : List Sphere)
    (rayorig raydir : Vec3) (depth : ℕ) : Vec3 :=
  traceL P spheres MAX_RAY_DEPTH rayorig raydir depth

/-- The non-recursive shading of a ray: nearest hit, then direct
illumination only (the `else` branch of the material test).  This is what
`trace` computes whenever the recursion guard is off. -/
def shadeDiffuse (P : MathPrims) (spheres : List Sphere)
    (rayorig raydir : Vec3) : Vec3 :=
  match nearestHit P spheres rayorig raydir with
  | none => Vec3.mk 2 2 2
  | some (tnear, sphere) =>
    let phit := rayorig + raydir.scale tnear
    let nhit0 := Vec3.normalize P.sqrt (phit - sphere.center)
    let nhit := if 0 < raydir.dot nhit0 then -nhit0 else nhit0
    directLight P spheres sphere phit nhit + sphere.emissionColor

/-- Integer square root by exhaustive search (kernel-reducible; used only to
build a concrete `MathPrims` witness). -/
def natSqrt (n : ℕ) : ℕ :=
  (List.range (n + 1)).foldl (fun a k => if k * k ≤ n then k else a) 0

/-- A concrete square root on `ℚ`, exact on perfect squares and nonnegative
everywhere; used to instantiate `MathPrims` in witnesses. -/
def ratSqrt (q : Scalar) : Scalar :=
  (natSqrt q.num.toNat : Scalar) / (natSqrt q.den : Scalar)

/-- A concrete primitive pack for witnesses (the `atan2`/`acos`/`pi` slots
are irrelevant to untextured scenes). -/
def P0 : MathPrims := ⟨ratSqrt, fun _ _ => 0, fun _ => 0, 0⟩

/-! ### Concrete scene objects used by witnesses -/

/-- A fully diffuse, non-emissive, untextured unit sphere in front of the
origin. -/
def cBase : Sphere := ⟨⟨0, 0, -5⟩, 1, 1, ⟨1, 1/2, 1/4⟩, 0, 0, 0, [], 0, 0⟩

/-- An emissive light sphere behind the camera (first emission channel
positive). -/
def cLight : Sphere := ⟨⟨0, 0, 10⟩, 1, 1, 0, ⟨3, 3, 3⟩, 0, 0, [], 0, 0⟩

/-- A sphere whose emission color has a positive SECOND component but a zero
first component. -/
def gLight : Sphere := ⟨⟨0, 0, 10⟩, 1, 1, 0, ⟨0, 1, 0⟩, 0, 0, [], 0, 0⟩

/-- A textured unit sphere with a 1×1 texture. -/
def cTex : Sphere := ⟨⟨0, 0, -5⟩, 1, 1, ⟨1, 1, 1⟩, 0, 0, 0, [[⟨5, 5, 5⟩]], 1, 1⟩

/-! ### Basic component lemmas -/

lemma Vec3.zeroAdd (v : Vec3) : 0 + v = v := by
  cases v with
  | mk a b c => show Vec3.mk (0 + a) (0 + b) (0 + c) = Vec3.mk a b c; simp

lemma Vec3.addZero (v : Vec3) : v + 0 = v := by
  cases v with
  | mk a b c => show Vec3.mk (a + 0) (b + 0) (c + 0) = Vec3.mk a b c; simp

lemma Vec3.mulOne (v : Vec3) : v * 1 = v := by
  cases v with
  | mk a b c => show Vec3.mk (a * 1) (b * 1) (c * 1) = Vec3.mk a b c; simp

lemma Vec3.mulZero (v : Vec3) : v * 0 = 0 := by
  cases v with
  | mk a b c => show Vec3.mk (a * 0) (b * 0) (c * 0) = Vec3.mk 0 0 0; simp

lemma Vec3.zeroScale (f : Scalar) : (0 : Vec3).scale f = 0 := by
  show Vec3.mk (0 * f) (0 * f) (0 * f) = Vec3.mk 0 0 0; simp

lemma Vec3.zeroMul (v : Vec3) : 0 * v = 0 := by
  cases v with
  | mk a b c => show Vec3.mk (0 * a) (0 * b) (0 * c) = Vec3.mk 0 0 0; simp

lemma natSqrt_nonneg (n : ℕ) : 0 ≤ (natSqrt n : Scalar) := by positivity

lemma ratSqrt_nonneg (q : Scalar) : 0 ≤ ratSqrt q := by
  unfold ratSqrt
  positivity

/-! ### C7: `Vec3::normalize` -/

/-- C7: `normalize` leaves a vector of non-positive squared length (in
particular the zero vector) unchanged, and for strictly positive squared
length scales every component by the reciprocal square root of the squared
length; the division happens only under the positivity guard, so the code
never divides by a zero length. -/
theorem normalize_spec (sq : Scalar → Scalar) (v : Vec3) :
    (¬ 0 < v.length2 → Vec3.normalize sq v = v) ∧
    (0 < v.length2 → Vec3.normalize sq v = v.scale (1 / sq v.length2)) ∧
    Vec3.normalize sq (0 : Vec3) = 0 := by
  refine ⟨fun h => ?_, fun h => ?_, ?_⟩
  · simp only [Vec3.normalize, if_neg h]
  · simp only [Vec3.normalize, if_pos h, Vec3.scale]
  · simp only [Vec3.normalize]
    rw [if_neg]
    show ¬ 0 < Vec3.length2 (Vec3.mk 0 0 0)
    simp [Vec3.length2]

/-- Witness for C7: a length-3 vector is scaled to a unit vector, the zero
vector stays put. -/
theorem normalize_spec_witness :
    Vec3.normalize ratSqrt (Vec3.mk 0 0 3) = Vec3.mk 0 0 1 ∧
    Vec3.normalize ratSqrt (Vec3.mk 0 0 0) = Vec3.mk 0 0 0 := by
  constructor
  · rw [(normalize_spec ratSqrt (Vec3.mk 0 0 3)).2.1 (by decide)]
    decide
  · exact (normalize_spec ratSqrt (Vec3.mk 0 0 0)).1 (by decide)

/-! ### C3: `Sphere::intersect` -/

/-- C3: `intersect` reports no intersection exactly when `tca < 0` or
`d² > radius²` (so in particular whenever the center is behind the origin
along the direction, even with the origin inside the sphere); otherwise it
reports `t0 = tca − thc`, `t1 = tca + thc` with `thc = sqrt(radius² − d²)`,
so `t0 ≤ t1` (the square root being nonnegative) and `t0`, `t1` are
equidistant from `tca`. -/
theorem intersect_spec (P : MathPrims) (hsq : ∀ q, 0 ≤ q → 0 ≤ P.sqrt q)
    (s : Sphere) (rayorig raydir : Vec3) :
    (s.intersect P rayorig raydir = none ↔
      (s.center - rayorig).dot raydir < 0 ∨
        s.radius2 < (s.center - rayorig).dot (s.center - rayorig) -
          (s.center - rayorig).dot raydir * (s.center - rayorig).dot raydir) ∧
    (∀ t0 t1, s.intersect P rayorig raydir = some (t0, t1) →
      t0 = (s.center - rayorig).dot raydir -
          P.sqrt (s.radius2 -
            ((s.center - rayorig).dot (s.center - rayorig) -
              (s.center - rayorig).dot raydir *
                (s.center - rayorig).dot raydir)) ∧
      t1 = (s.center - rayorig).dot raydir +
          P.sqrt (s.radius2 -
            ((s.center - rayorig).dot (s.center - rayorig) -
              (s.center - rayorig).dot raydir *
                (s.center - rayorig).dot raydir)) ∧
      t0 ≤ t1 ∧
      (s.center - rayorig).dot raydir - t0 =
        t1 - (s.center - rayorig).dot raydir) := by
  unfold Sphere.intersect
  constructor
  · by_cases h1 : (s.center - rayorig).dot raydir < 0
    · simp [h1]
    · by_cases h2 : s.radius2 <
          (s.center - rayorig).dot (s.center - rayorig) -
            (s.center - rayorig).dot raydir * (s.center - rayorig).dot raydir
      · simp [h1, h2]
      · simp [h1, h2]
  · intro t0 t1 h
    by_cases h1 : (s.center - rayorig).dot raydir < 0
    · simp [h1] at h
    · by_cases h2 : s.radius2 <
          (s.center - rayorig).dot (s.center - rayorig) -
            (s.center - rayorig).dot raydir * (s.center - rayorig).dot raydir
      · simp [h1, h2] at h
      · simp only [if_neg h1, if_neg h2, Option.some.injEq, Prod.mk.injEq] at h
        obtain ⟨ht0, ht1⟩ := h
        have hnn : 0 ≤ P.sqrt (s.radius2 -
            ((s.center - rayorig).dot (s.center - rayorig) -
              (s.center - rayorig).dot raydir *
                (s.center - rayorig).dot raydir)) := by
          apply hsq
          linarith [not_lt.mp h2]
        refine ⟨ht0.symm, ht1.symm, ?_, ?_⟩
        · rw [← ht0, ← ht1]; linarith
        · rw [← ht0, ← ht1]; ring

/-- Witness for C3: the head-on ray against `cBase` yields `(t0, t1) = (4, 6)`
with `t0 ≤ t1`. -/
theorem intersect_spec_witness :
    Sphere.intersect P0 cBase (Vec3.mk 0 0 0) (Vec3.mk 0 0 (-1)) = some (4, 6) ∧
    (4 : Scalar) ≤ 6 :=
  ⟨by decide,
    ((intersect_spec P0 (fun q _ => ratSqrt_nonneg q) cBase
        (Vec3.mk 0 0 0) (Vec3.mk 0 0 (-1))).2 4 6 (by decide)).2.2.1⟩

/-! ### C8: texture lookups stay in bounds -/

/-- C8: for a textured sphere whose stored texture width and height are at
least 1, the clamped pixel indices `getColor` computes lie in
`[0, width) × [0, height)` for EVERY scalar input to the clamp (so also for
u, v outside `[0,1]`), and `getColor` returns the texel at exactly those
clamped indices. -/
theorem getColor_inbounds (P : MathPrims) (s : Sphere) (phit : Vec3)
    (htex : ¬ s.texture = []) (hw : 1 ≤ s.textureWidth)
    (hh : 1 ≤ s.textureHeight) :
    (∀ t : Scalar,
      0 ≤ texIndex s.textureWidth t ∧ texIndex s.textureWidth t < s.textureWidth) ∧
    (∀ t : Scalar,
      0 ≤ texIndex s.textureHeight t ∧
        texIndex s.textureHeight t < s.textureHeight) ∧
    s.getColor P phit =
      texAt s.texture
        (texIndex s.textureHeight
          (P.acos ((phit - s.center).y / s.radius) / P.pi * s.textureHeight))
        (texIndex s.textureWidth
          ((P.atan2 (phit - s.center).z (phit - s.center).x / (2 * P.pi) + 1/2) *
            s.textureWidth)) := by
  refine ⟨fun t => ?_, fun t => ?_, ?_⟩
  · unfold texIndex; omega
  · unfold texIndex; omega
  · unfold Sphere.getColor
    rw [if_neg htex]

/-- Witness for C8: the 1×1-textured sphere `cTex` clamps every index to 0
and looks up its sole texel. -/
theorem getColor_inbounds_witness :
    (0 ≤ texIndex cTex.textureWidth (7/2) ∧
      texIndex cTex.textureWidth (7/2) < cTex.textureWidth) ∧
    Sphere.getColor P0 cTex (Vec3.mk 0 0 0) =
      texAt cTex.texture
        (texIndex cTex.textureHeight
          (P0.acos (((Vec3.mk 0 0 0) - cTex.center).y / cTex.radius) / P0.pi *
            cTex.textureHeight))
        (texIndex cTex.textureWidth
          ((P0.atan2 ((Vec3.mk 0 0 0) - cTex.center).z
              ((Vec3.mk 0 0 0) - cTex.center).x / (2 * P0.pi) + 1/2) *
            cTex.textureWidth)) :=
  ⟨(getColor_inbounds P0 cTex (Vec3.mk 0 0 0) (by decide) (by decide)
      (by decide)).1 (7/2),
    (getColor_inbounds P0 cTex (Vec3.mk 0 0 0) (by decide) (by decide)
      (by decide)).2.2⟩

/-! ### The nearest-hit fold invariant -/

/-- Case analysis of one step of the nearest-hit fold: either the
accumulator is kept, or the stepped sphere intersects and its chosen
distance beats the current `tnear`. -/
lemma nearStep_cases (P : MathPrims) (rayorig raydir : Vec3)
    (acc : Scalar × Option Sphere) (hd : Sphere) :
    nearStep P rayorig raydir acc hd = acc ∨
      ∃ t0 t1, hd.intersect P rayorig raydir = some (t0, t1) ∧
        (if t0 < 0 then t1 else t0) < acc.1 ∧
        nearStep P rayorig raydir acc hd =
          (if t0 < 0 then t1 else t0, some hd) := by
  unfold nearStep
  cases hint : hd.intersect P rayorig raydir with
  | none => exact Or.inl rfl
  | some tt =>
    obtain ⟨t0, t1⟩ := tt
    by_cases hlt : (if t0 < 0 then t1 else t0) < acc.1
    · exact Or.inr ⟨t0, t1, rfl, hlt, by simp only [if_pos hlt]⟩
    · exact Or.inl (by simp only [if_neg hlt])

/-- A step of the nearest-hit fold preserves any property `p` of the
carried `(distance, sphere)` pair that holds of every candidate the stepped
sphere can produce. -/
lemma nearStep_inv (P : MathPrims) (rayorig raydir : Vec3)
    (p : Scalar → Sphere → Prop) (acc : Scalar × Option Sphere) (hd : Sphere)
    (hacc : ∀ t s, acc = (t, some s) → p t s)
    (hhd : ∀ t0 t1, hd.intersect P rayorig raydir = some (t0, t1) →
      p (if t0 < 0 then t1 else t0) hd) :
    ∀ t s, nearStep P rayorig raydir acc hd = (t, some s) → p t s := by
  intro t s h
  rcases nearStep_cases P rayorig raydir acc hd with hc | ⟨t0, t1, hint, _, hc⟩
  · exact hacc _ _ (hc.symm.trans h)
  · rw [hc] at h
    simp only [Prod.mk.injEq, Option.some.injEq] at h
    obtain ⟨rfl, rfl⟩ := h
    exact hhd t0 t1 hint

/-- Any property `p` that holds of every candidate `(distance, sphere)` pair
a scene can produce, and of the accumulator when it already carries a
sphere, is preserved by the whole nearest-hit fold. -/
lemma nearestFold_inv (P : MathPrims) (rayorig raydir : Vec3)
    (p : Scalar → Sphere → Prop) :
    ∀ (l : List Sphere) (acc : Scalar × Option Sphere),
      (∀ s ∈ l, ∀ t0 t1, s.intersect P rayorig raydir = some (t0, t1) →
        p (if t0 < 0 then t1 else t0) s) →
      (∀ t s, acc = (t, some s) → p t s) →
      ∀ t s, l.foldl (nearStep P rayorig raydir) acc = (t, some s) → p t s := by
  intro l
  induction l with
  | nil => intro acc _ hacc t s h; exact hacc t s h
  | cons hd tl ih =>
    intro acc hl hacc t s h
    rw [List.foldl_cons] at h
    refine ih _ (fun s hs => hl s (List.mem_cons_of_mem hd hs)) ?_ t s h
    exact nearStep_inv P rayorig raydir p acc hd hacc
      (hl hd (List.mem_cons_self hd tl))

/-- The sphere returned by the nearest-hit search belongs to the scene. -/
lemma nearestHit_mem (P : MathPrims) (spheres : List Sphere)
    (rayorig raydir : Vec3) (t : Scalar) (s : Sphere)
    (h : nearestHit P spheres rayorig raydir = some (t, s)) : s ∈ spheres := by
  have hinv := nearestFold_inv P rayorig raydir (fun _ s => s ∈ spheres)
    spheres (INFINITY, none) (fun s hs _ _ _ => hs)
    (by intro t' s' h'; cases h')
  unfold nearestHit at h
  split at h
  · cases h
  · next t' s' heq =>
    simp only [Option.some.injEq, Prod.mk.injEq] at h
    obtain ⟨rfl, rfl⟩ := h
    exact hinv _ _ heq

/-! ### C9: tracked distances are never negative -/

/-- On any reported intersection, `t1 = tca + thc` is nonnegative (`tca ≥ 0`
by the guard, `thc` a square root of a nonnegative argument), hence so is
the per-sphere distance `t0`-or-`t1`. -/
lemma intersect_chosen_nonneg (P : MathPrims)
    (hsq : ∀ q, 0 ≤ q → 0 ≤ P.sqrt q) (s : Sphere) (rayorig raydir : Vec3)
    (t0 t1 : Scalar) (h : s.intersect P rayorig raydir = some (t0, t1)) :
    0 ≤ t1 ∧ 0 ≤ (if t0 < 0 then t1 else t0) := by
  simp only [Sphere.intersect] at h
  split at h
  · cases h
  · next h1 =>
    split at h
    · cases h
    · next h2 =>
      simp only [Option.some.injEq, Prod.mk.injEq] at h
      obtain ⟨h3, h4⟩ := h
      have htca : 0 ≤ (s.center - rayorig).dot raydir := not_lt.mp h1
      have hthc : 0 ≤ P.sqrt (s.radius2 -
          ((s.center - rayorig).dot (s.center - rayorig) -
            (s.center - rayorig).dot raydir *
              (s.center - rayorig).dot raydir)) := by
        apply hsq
        linarith [not_lt.mp h2]
      constructor
      · rw [← h4]; linarith
      · split
        · rw [← h4]; linarith
        · next h5 => exact not_lt.mp h5

/-- C9: every reported `t1` is nonnegative, so the per-sphere distance fed
into the nearest-hit search is nonnegative, and so is the `tnear` finally
selected: the hit point always lies along the forward ray. -/
theorem nearest_distance_nonneg (P : MathPrims)
    (hsq : ∀ q, 0 ≤ q → 0 ≤ P.sqrt q) (spheres : List Sphere)
    (rayorig raydir : Vec3) :
    (∀ (s : Sphere) (t0 t1 : Scalar),
        s.intersect P rayorig raydir = some (t0, t1) →
          0 ≤ t1 ∧ 0 ≤ (if t0 < 0 then t1 else t0)) ∧
    (∀ (t : Scalar) (s : Sphere),
        nearestHit P spheres rayorig raydir = some (t, s) → 0 ≤ t) := by
  constructor
  · exact fun s t0 t1 h => intersect_chosen_nonneg P hsq s rayorig raydir t0 t1 h
  · intro t s h
    have hinv := nearestFold_inv P rayorig raydir (fun t _ => 0 ≤ t) spheres
      (INFINITY, none)
      (fun s _ t0 t1 hint =>
        (intersect_chosen_nonneg P hsq s rayorig raydir t0 t1 hint).2)
      (by intro t' s' h'; cases h')
    unfold nearestHit at h
    split at h
    · cases h
    · next t' s' heq =>
      simp only [Option.some.injEq, Prod.mk.injEq] at h
      obtain ⟨rfl, rfl⟩ := h
      exact hinv _ _ heq

/-- Witness for C9: the concrete head-on hit of `cBase` is found at the
nonnegative distance 4. -/
theorem nearest_distance_nonneg_witness :
    nearestHit P0 [cBase] (Vec3.mk 0 0 0) (Vec3.mk 0 0 (-1)) =
      some (4, cBase) ∧ (0 : Scalar) ≤ 4 :=
  ⟨by decide,
    (nearest_distance_nonneg P0 (fun q _ => ratSqrt_nonneg q) [cBase]
        (Vec3.mk 0 0 0) (Vec3.mk 0 0 (-1))).2 4 cBase (by decide)⟩

/-! ### C4: no hit yields the background sentinel -/

/-- If every sphere either misses the ray or reports a chosen distance not
below `INFINITY`, the nearest-hit fold never leaves its initial
accumulator. -/
lemma nearestFold_miss (P : MathPrims) (rayorig raydir : Vec3) :
    ∀ l : List Sphere,
      (∀ s ∈ l, ∀ t0 t1, s.intersect P rayorig raydir = some (t0, t1) →
        INFINITY ≤ (if t0 < 0 then t1 else t0)) →
      l.foldl (nearStep P rayorig raydir) (INFINITY, none) =
        (INFINITY, none) := by
  intro l
  induction l with
  | nil => intro _; rfl
  | cons hd tl ih =>
    intro hl
    rw [List.foldl_cons]
    have hstep : nearStep P rayorig raydir (INFINITY, none) hd =
        (INFINITY, none) := by
      rcases nearStep_cases P rayorig raydir (INFINITY, none) hd with
        hc | ⟨t0, t1, hint, hlt, hc⟩
      · exact hc
      · exact absurd hlt
          (not_lt.mpr (hl hd (List.mem_cons_self hd tl) t0 t1 hint))
    rw [hstep]
    exact ih fun s hs => hl s (List.mem_cons_of_mem hd hs)

/-- C4: when no sphere registers a hit (every `intersect` fails, or every
recorded distance fails to beat the initial `INFINITY`), `trace` returns the
background sentinel `(2, 2, 2)` at every depth. -/
theorem trace_background (P : MathPrims) (spheres : List Sphere)
    (rayorig raydir : Vec3)
    (hmiss : ∀ s ∈ spheres, ∀ t0 t1,
        s.intersect P rayorig raydir = some (t0, t1) →
          INFINITY ≤ (if t0 < 0 then t1 else t0)) :
    ∀ depth : ℕ, trace P spheres rayorig raydir depth = Vec3.mk 2 2 2 := by
  have hnone : nearestHit P spheres rayorig raydir = none := by
    unfold nearestHit
    rw [show nearestHitAux P spheres rayorig raydir = (INFINITY, none) from
      nearestFold_miss P rayorig raydir spheres hmiss]
  have hstep : ∀ (r : Vec3 → Vec3 → Vec3) (b : Bool),
      traceStep P spheres r b rayorig raydir = Vec3.mk 2 2 2 := by
    intro r b
    unfold traceStep
    rw [hnone]
  intro depth
  unfold trace traceL
  cases MAX_RAY_DEPTH - depth with
  | zero => exact hstep _ _
  | succ g => exact hstep _ _

/-- A sphere fully behind the witness ray. -/
def cBehind : Sphere := ⟨⟨0, 0, 5⟩, 1, 1, ⟨1, 1, 1⟩, 0, 0, 0, [], 0, 0⟩

/-- Witness for C4: a ray looking away from the only sphere returns the
sentinel. -/
theorem trace_background_witness :
    trace P0 [cBehind] (Vec3.mk 0 0 0) (Vec3.mk 0 0 (-1)) 0 =
      Vec3.mk 2 2 2 := by
  apply trace_background
  intro s hs t0 t1 hint
  rw [List.mem_singleton] at hs
  subst hs
  rw [show Sphere.intersect P0 cBehind (Vec3.mk 0 0 0) (Vec3.mk 0 0 (-1)) =
      none from by decide] at hint
  cases hint

/-! ### C5: the depth guard bounds the recursion -/

/-- C5: `trace` satisfies the source's recursion pattern — below
`MAX_RAY_DEPTH` every recursive ray is traced at `depth + 1`, and at depth
`MAX_RAY_DEPTH` or beyond the recursion is disabled altogether (guard
`depth < MAX_RAY_DEPTH` false), so the recursion never exceeds
`MAX_RAY_DEPTH` levels and `trace` is total on every scene and material
configuration. -/
theorem trace_depth_guard (P : MathPrims) (spheres : List Sphere)
    (rayorig raydir : Vec3) :
    (∀ depth : ℕ, depth < MAX_RAY_DEPTH →
        trace P spheres rayorig raydir depth =
          traceStep P spheres
            (fun o2 d2 => trace P spheres o2 d2 (depth + 1)) true
            rayorig raydir) ∧
    (∀ depth : ℕ, MAX_RAY_DEPTH ≤ depth →
        trace P spheres rayorig raydir depth =
          traceStep P spheres (fun _ _ => 0) false rayorig raydir) := by
  constructor
  · intro depth hd
    unfold trace traceL
    have h1 : MAX_RAY_DEPTH - depth = MAX_RAY_DEPTH - (depth + 1) + 1 := by
      have hd5 : depth < 5 := hd
      show 5 - depth = 5 - (depth + 1) + 1
      omega
    rw [h1]
    rfl
  · intro depth hd
    unfold trace traceL
    have h1 : MAX_RAY_DEPTH - depth = 0 := by
      have hd5 : 5 ≤ depth := hd
      show 5 - depth = 0
      omega
    rw [h1]
    rfl

/-- Witness for C5: both shapes of the recursion equation at concrete
depths 0 and 5. -/
theorem trace_depth_guard_witness :
    trace P0 [] (Vec3.mk 0 0 0) (Vec3.mk 0 0 1) 0 =
      traceStep P0 [] (fun o2 d2 => trace P0 [] o2 d2 (0 + 1)) true
        (Vec3.mk 0 0 0) (Vec3.mk 0 0 1) ∧
    trace P0 [] (Vec3.mk 0 0 0) (Vec3.mk 0 0 1) 5 =
      traceStep P0 [] (fun _ _ => 0) false
        (Vec3.mk 0 0 0) (Vec3.mk 0 0 1) :=
  ⟨(trace_depth_guard P0 [] (Vec3.mk 0 0 0) (Vec3.mk 0 0 1)).1 0 (by decide),
   (trace_depth_guard P0 [] (Vec3.mk 0 0 0) (Vec3.mk 0 0 1)).2 5 (by decide)⟩

/-! ### C6: opaque scenes make depth and limit irrelevant -/

/-- If every sphere of the scene is opaque (`reflection = 0` and
`transparency = 0`), one level of `trace` reduces to the purely diffuse
shading, whatever the recursion argument and guard. -/
lemma traceStep_opaque (P : MathPrims) (spheres : List Sphere)
    (h : ∀ s ∈ spheres, s.reflection = 0 ∧ s.transparency = 0)
    (r : Vec3 → Vec3 → Vec3) (b : Bool) (rayorig raydir : Vec3) :
    traceStep P spheres r b rayorig raydir =
      shadeDiffuse P spheres rayorig raydir := by
  unfold traceStep shadeDiffuse
  cases hhit : nearestHit P spheres rayorig raydir with
  | none => rfl
  | some ts =>
    obtain ⟨t, s⟩ := ts
    have hs := nearestHit_mem P spheres rayorig raydir t s hhit
    obtain ⟨hrefl, htransp⟩ := h s hs
    have hguard : ¬ ((0 < s.transparency ∨ 0 < s.reflection) ∧ b = true) := by
      rintro ⟨hm, -⟩
      rcases hm with hm | hm
      · rw [htransp] at hm; exact lt_irrefl 0 hm
      · rw [hrefl] at hm; exact lt_irrefl 0 hm
    simp only [if_neg hguard]

/-- C6: in a scene whose spheres all have `reflection = 0` and
`transparency = 0`, the color returned by `trace` is independent of both the
depth argument and the maximum-recursion-depth limit (e.g. limit 50 agrees
with limit 5 on every ray). -/
theorem trace_opaque_depth_irrelevant (P : MathPrims) (spheres : List Sphere)
    (h : ∀ s ∈ spheres, s.reflection = 0 ∧ s.transparency = 0) :
    ∀ (limit1 limit2 depth1 depth2 : ℕ) (rayorig raydir : Vec3),
      traceL P spheres limit1 rayorig raydir depth1 =
        traceL P spheres limit2 rayorig raydir depth2 := by
  have key : ∀ (gas : ℕ) (rayorig raydir : Vec3),
      traceGas P spheres gas rayorig raydir =
        shadeDiffuse P spheres rayorig raydir := by
    intro gas rayorig raydir
    cases gas with
    | zero => exact traceStep_opaque P spheres h _ _ rayorig raydir
    | succ g => exact traceStep_opaque P spheres h _ _ rayorig raydir
  intro l1 l2 d1 d2 rayorig raydir
  unfold traceL
  rw [key, key]

/-- Witness for C6: limit 50 and limit 5 agree on a concrete opaque scene. -/
theorem trace_opaque_depth_irrelevant_witness :
    traceL P0 [cBase, cLight] 50 (Vec3.mk 0 0 0) (Vec3.mk 0 0 (-1)) 0 =
      traceL P0 [cBase, cLight] 5 (Vec3.mk 0 0 0) (Vec3.mk 0 0 (-1)) 0 :=
  trace_opaque_depth_irrelevant P0 [cBase, cLight]
    (by
      intro s hs
      rcases List.mem_cons.mp hs with rfl | hs
      · exact ⟨rfl, rfl⟩
      · rcases List.mem_singleton.mp hs with rfl
        exact ⟨rfl, rfl⟩)
    50 5 0 0 (Vec3.mk 0 0 0) (Vec3.mk 0 0 (-1))

/-! ### C10: the shadow search excludes only the emitting sphere -/

/-- C10: in the occlusion test for light index `i`, the only index excluded
is `i` itself — every other sphere, including the sphere being shaded, is a
potential occluder — and the light's transmission factor is exactly 0 when
some such sphere intersects the biased shadow ray, exactly 1 otherwise. -/
theorem shadow_search_spec (P : MathPrims) (spheres : List Sphere)
    (shaded : Sphere) (phit nhit : Vec3) (i : ℕ) :
    (∀ orig dir : Vec3,
      (occludedFrom P spheres i orig dir = true ↔
        ∃ j, j < spheres.length ∧ j ≠ i ∧
          ((spheres.getD j defaultSphere).intersect P orig dir).isSome =
            true)) ∧
    (occludedFrom P spheres i (phit + nhit.scale bias)
        (Vec3.normalize P.sqrt
          ((spheres.getD i defaultSphere).center - phit)) = true →
      lightTerm P spheres shaded phit nhit i = 0) ∧
    (occludedFrom P spheres i (phit + nhit.scale bias)
        (Vec3.normalize P.sqrt
          ((spheres.getD i defaultSphere).center - phit)) = false →
      lightTerm P spheres shaded phit nhit i =
        (shaded.getColor P phit).scale
            (max 0 (nhit.dot (Vec3.normalize P.sqrt
              ((spheres.getD i defaultSphere).center - phit)))) *
          (spheres.getD i defaultSphere).emissionColor) := by
  refine ⟨fun orig dir => ?_, fun hocc => ?_, fun hocc => ?_⟩
  · unfold occludedFrom
    simp only [List.any_eq_true, List.mem_range, Bool.and_eq_true,
      decide_eq_true_eq]
  · unfold lightTerm
    simp only [hocc, if_true]
    rw [Vec3.mulZero, Vec3.zeroScale, Vec3.zeroMul]
  · unfold lightTerm
    simp only [hocc, Bool.false_eq_true, if_false]
    rw [Vec3.mulOne]

/-- Witness for C10: in the concrete scene the shadow ray toward `cLight` is
unobstructed, so the transmission is 1 and the light's full Lambertian term
is accumulated. -/
theorem shadow_search_spec_witness :
    occludedFrom P0 [cBase, cLight] 1
      ((Vec3.mk 0 0 (-4)) + (Vec3.mk 0 0 1).scale bias)
      (Vec3.normalize P0.sqrt
        (([cBase, cLight].getD 1 defaultSphere).center -
          Vec3.mk 0 0 (-4))) = false ∧
    lightTerm P0 [cBase, cLight] cBase (Vec3.mk 0 0 (-4)) (Vec3.mk 0 0 1) 1 =
      (Sphere.getColor P0 cBase (Vec3.mk 0 0 (-4))).scale
          (max 0 ((Vec3.mk 0 0 1).dot (Vec3.normalize P0.sqrt
            (([cBase, cLight].getD 1 defaultSphere).center -
              Vec3.mk 0 0 (-4))))) *
        ([cBase, cLight].getD 1 defaultSphere).emissionColor :=
  ⟨by decide,
    (shadow_search_spec P0 [cBase, cLight] cBase (Vec3.mk 0 0 (-4))
        (Vec3.mk 0 0 1) 1).2.2 (by decide)⟩

/-! ### C1: which spheres are treated as lights -/

/-- Folding with a guarded accumulation is folding over the filtered list. -/
lemma foldl_filter_add {α : Type} (p : α → Bool) (g : Vec3 → α → Vec3) :
    ∀ (l : List α) (a : Vec3),
      l.foldl (fun acc i => if p i = true then g acc i else acc) a =
        (l.filter p).foldl g a := by
  intro l
  induction l with
  | nil => intro a; rfl
  | cons hd tl ih =>
    intro a
    rw [List.foldl_cons, List.filter_cons]
    by_cases hp : p hd = true
    · rw [if_pos hp, if_pos hp, List.foldl_cons]
      exact ih (g a hd)
    · rw [if_neg hp, if_neg hp]
      exact ih a

/-- C1 (amended): the direct-illumination step accumulates exactly one
point-light term (light placed at the sphere's center, see `lightTerm`) for
every sphere whose emission color's FIRST component is positive
(`isLightCode`); spheres whose emission is positive only in another channel
contribute nothing. -/
theorem directLight_first_channel (P : MathPrims) (spheres : List Sphere)
    (shaded : Sphere) (phit nhit : Vec3) :
    directLight P spheres shaded phit nhit =
      ((List.range spheres.length).filter
          (fun i => isLightCode (spheres.getD i defaultSphere))).foldl
        (fun acc i => acc + lightTerm P spheres shaded phit nhit i) 0 := by
  unfold directLight
  rw [← foldl_filter_add (fun i => isLightCode (spheres.getD i defaultSphere))
      (fun acc i => acc + lightTerm P spheres shaded phit nhit i)]
  congr 1
  funext acc i
  simp only [isLightCode, decide_eq_true_eq]

/-- Counterexample for C1 as stated: `gLight` has a positive emission
component (the second channel), and in a scene where it would illuminate the
shaded point head-on and unoccluded (the claimed contribution
`surfaceColor · max(0,N·L) · emission` is nonzero), `trace` still returns
pure black — the code treats a sphere as a light only when the FIRST
emission channel is positive. -/
theorem light_guard_cex :
    isLightCode gLight = false ∧
    0 < gLight.emissionColor.y ∧
    trace P0 [cBase, gLight] (Vec3.mk 0 0 0) (Vec3.mk 0 0 (-1)) 0 =
      Vec3.mk 0 0 0 ∧
    cBase.surfaceColor.scale
        (max 0 ((Vec3.mk 0 0 1).dot
          (Vec3.normalize P0.sqrt (gLight.center - Vec3.mk 0 0 (-4))))) *
      gLight.emissionColor ≠ Vec3.mk 0 0 0 := by
  refine ⟨by decide, by decide, by decide, by decide⟩

/-! ### C2: single opaque sphere plus one light -/

/-- In a two-sphere scene, the shadow search for the light at index 1 tests
exactly the sphere at index 0 (the shaded sphere itself). -/
lemma occludedFrom_pair (P : MathPrims) (a b : Sphere) (orig dir : Vec3) :
    occludedFrom P [a, b] 1 orig dir = (a.intersect P orig dir).isSome := by
  simp [occludedFrom, List.range_succ, List.getD]

/-- In a two-sphere scene whose first sphere is not a light and whose second
is, the direct-illumination loop accumulates exactly the second sphere's
term. -/
lemma directLight_pair (P : MathPrims) (a b shaded : Sphere)
    (phit nhit : Vec3) (ha : ¬ 0 < a.emissionColor.x)
    (hb : 0 < b.emissionColor.x) :
    directLight P [a, b] shaded phit nhit =
      0 + lightTerm P [a, b] shaded phit nhit 1 := by
  unfold directLight
  rw [show List.range (List.length [a, b]) = [0, 1] from rfl]
  rw [List.foldl_cons, List.foldl_cons, List.foldl_nil]
  simp only [List.getD_cons_zero, List.getD_cons_succ]
  rw [if_neg ha, if_pos hb]

/-- One level of `trace` with a known nearest hit and the recursion guard
off reduces to direct illumination plus the hit sphere's own emission. -/
lemma traceStep_hit (P : MathPrims) (spheres : List Sphere)
    (r : Vec3 → Vec3 → Vec3) (b : Bool) (t : Scalar) (s : Sphere)
    (rayorig raydir : Vec3)
    (hhit : nearestHit P spheres rayorig raydir = some (t, s))
    (hguard : ¬ ((0 < s.transparency ∨ 0 < s.reflection) ∧ b = true)) :
    traceStep P spheres r b rayorig raydir =
      directLight P spheres s (rayorig + raydir.scale t)
        (if 0 < raydir.dot
            (Vec3.normalize P.sqrt ((rayorig + raydir.scale t) - s.center))
         then -(Vec3.normalize P.sqrt ((rayorig + raydir.scale t) - s.center))
         else Vec3.normalize P.sqrt ((rayorig + raydir.scale t) - s.center)) +
      s.emissionColor := by
  unfold traceStep
  rw [hhit]
  simp only [if_neg hguard]

/-- C2: for a scene of one opaque (reflection 0, transparency 0),
non-emissive, untextured sphere `s` and one light sphere `l`, a ray hitting
`s` with the light unoccluded, `trace` returns exactly
`surfaceColor · max(0, N·L) · emission`, for every depth. -/
theorem trace_single_light (P : MathPrims) (s l : Sphere)
    (rayorig raydir : Vec3) (t : Scalar) (phit nhit0 nhit L : Vec3)
    (hrefl : s.reflection = 0) (htransp : s.transparency = 0)
    (hemit : s.emissionColor = 0) (htex : s.texture = [])
    (hlight : 0 < l.emissionColor.x)
    (hhit : nearestHit P [s, l] rayorig raydir = some (t, s))
    (hphit : phit = rayorig + raydir.scale t)
    (hnhit0 : nhit0 = Vec3.normalize P.sqrt (phit - s.center))
    (hnhit : nhit = if 0 < raydir.dot nhit0 then -nhit0 else nhit0)
    (hL : L = Vec3.normalize P.sqrt (l.center - phit))
    (hshadow : s.intersect P (phit + nhit.scale bias) L = none) :
    ∀ depth : ℕ, trace P [s, l] rayorig raydir depth =
      s.surfaceColor.scale (max 0 (nhit.dot L)) * l.emissionColor := by
  have hsx : ¬ 0 < s.emissionColor.x := by
    rw [hemit]; decide
  have hguard : ∀ b : Bool,
      ¬ ((0 < s.transparency ∨ 0 < s.reflection) ∧ b = true) := by
    rintro b ⟨hm | hm, -⟩
    · rw [htransp] at hm; exact lt_irrefl 0 hm
    · rw [hrefl] at hm; exact lt_irrefl 0 hm
  subst hphit
  subst hnhit0
  subst hnhit
  subst hL
  have hstep : ∀ (r : Vec3 → Vec3 → Vec3) (b : Bool),
      traceStep P [s, l] r b rayorig raydir =
        s.surfaceColor.scale
            (max 0
              ((if 0 < raydir.dot
                    (Vec3.normalize P.sqrt
                      ((rayorig + raydir.scale t) - s.center))
                then -(Vec3.normalize P.sqrt
                  ((rayorig + raydir.scale t) - s.center))
                else Vec3.normalize P.sqrt
                  ((rayorig + raydir.scale t) - s.center)).dot
                (Vec3.normalize P.sqrt
                  (l.center - (rayorig + raydir.scale t))))) *
          l.emissionColor := by
    intro r b
    rw [traceStep_hit P [s, l] r b t s rayorig raydir hhit (hguard b)]
    rw [directLight_pair P s l s _ _ hsx hlight, Vec3.zeroAdd]
    unfold lightTerm
    simp only [List.getD_cons_succ, List.getD_cons_zero]
    simp only [occludedFrom_pair, hshadow, Option.isSome_none,
      Bool.false_eq_true, if_false]
    rw [Vec3.mulOne]
    unfold Sphere.getColor
    rw [if_pos htex, hemit, Vec3.addZero]
  intro depth
  unfold trace traceL
  cases MAX_RAY_DEPTH - depth with
  | zero => exact hstep _ _
  | succ g => exact hstep _ _

/-- Witness for C2: the concrete head-on scene evaluates to
`(1, 1/2, 1/4) · max(0, 1) · (3, 3, 3) = (3, 3/2, 3/4)`. -/
theorem trace_single_light_witness :
    trace P0 [cBase, cLight] (Vec3.mk 0 0 0) (Vec3.mk 0 0 (-1)) 0 =
      Vec3.mk 3 (3/2) (3/4) := by
  have h := trace_single_light P0 cBase cLight (Vec3.mk 0 0 0)
    (Vec3.mk 0 0 (-1)) 4 (Vec3.mk 0 0 (-4)) (Vec3.mk 0 0 1) (Vec3.mk 0 0 1)
    (Vec3.mk 0 0 1) rfl rfl rfl rfl (by decide) (by decide) (by decide)
    (by decide) (by decide) (by decide) (by decide) 0
  rw [h]
  decide
